import Mathlib

/-!
Shallow embedding of the core of the CNG GNSS Interactive Demo repository:
the event bus (src/core/event_bus.py), the simulation clock
(src/core/simulation_clock.py) and the application lifecycle host
(src/core/app_framework.py), together with theorems about the
publish/subscribe, history, clock-speed and component-lifecycle behaviour.

Modelling conventions:
* Python machine-independent ints are Lean Int (priorities, max_history) or
  Nat (counters); floats and datetimes are idealised as rationals.
* uuid4 subscription ids and event ids are abstracted into counters that
  produce fresh values, which is the only property the code relies on;
  the event timestamp and event_id are folded into a strictly increasing
  sequence number Event.seq.
* A Python dict (which preserves insertion order) is an association list;
  updating an existing key keeps its position, a new key is appended.
* Callbacks and filters are opaque apart from their observable behaviour
  during publish: a callback is represented by whether it raises on a given
  event, a filter by whether it passes, rejects, or raises.  A method call
  "returns" the list of subscription ids whose callback was invoked.
* Exceptions are explicit: a raising step produces a Bool / Except value;
  the try/except blocks of the source appear as the points where that
  value is dropped instead of propagated.
-/

namespace CNG

/-- Payload values carried in the data field of an event (Python Any). -/
inductive EData where
  | none
  | nat (n : Nat)
  | str (s : String)
  | timeSpeed (time speed : ℚ)
  | timeSpeedPlaying (time speed : ℚ) (playing : Bool)
  | names (l : List String)
deriving DecidableEq, Repr

/-- Event dataclass of event_bus.py: event_type, data, source, and the
timestamp / uuid event_id pair abstracted into the sequence number seq. -/
structure Event where
  event_type : String
  data : EData
  source : String
  seq : Nat
deriving DecidableEq, Repr

/-- Outcome of evaluating a subscription filter on an event: the filter
returns truthy, returns falsy, or raises. -/
inductive FilterRes where
  | pass
  | fail
  | exn
deriving DecidableEq, Repr

/-- EventSubscription dataclass of event_bus.py.  The callback is
represented by its observable behaviour cb_raises (whether invoking it on a
given event raises); the optional filter_func by its outcome per event. -/
structure EventSubscription where
  subscription_id : Nat
  event_type : String
  cb_raises : Event → Bool
  priority : Int
  filter_func : Option (Event → FilterRes)

/-- State of an EventBus instance (event_bus.py).  The performance-stats
dictionary holds wall-clock durations and is not modelled; next_id and
next_seq are the uuid freshness abstraction. -/
structure EventBus where
  subscribers : List (String × List EventSubscription)
  event_history : List Event
  max_history : Int
  total_events_published : Nat
  next_id : Nat
  next_seq : Nat

/-- EventBus.__init__ with a given max_history (source default 1000). -/
def EventBus.new (max_history : Int) : EventBus :=
  { subscribers := [], event_history := [], max_history := max_history,
    total_events_published := 0, next_id := 0, next_seq := 0 }

/-- Python dict lookup d.get(k) on an insertion-ordered association list. -/
def dictFind {α : Type} : List (String × α) → String → Option α
  | [], _ => Option.none
  | (k1, v) :: rest, k => if k1 = k then some v else dictFind rest k

/-- Python dict assignment d[k] = v: an existing key keeps its position,
a new key is appended at the end. -/
def dictSet {α : Type} : List (String × α) → String → α → List (String × α)
  | [], k, v => [(k, v)]
  | (k1, v1) :: rest, k, v =>
    if k1 = k then (k, v) :: rest else (k1, v1) :: dictSet rest k v

/-- Python dict deletion del d[k]. -/
def dictRemove {α : Type} : List (String × α) → String → List (String × α)
  | [], _ => []
  | (k1, v1) :: rest, k => if k1 = k then rest else (k1, v1) :: dictRemove rest k

/-- self._subscribers.get(event_type, []): the subscriber list stored for a
key, empty when the key is absent. -/
def dictGet {α : Type} (d : List (String × List α)) (k : String) : List α :=
  match dictFind d k with
  | some v => v
  | Option.none => []

/-- One step of a stable insertion sort by descending priority: the new
element goes in front of the first element whose priority is not larger. -/
def insertDesc (x : EventSubscription) :
    List EventSubscription → List EventSubscription
  | [] => [x]
  | y :: ys => if y.priority ≤ x.priority then x :: y :: ys else y :: insertDesc x ys

/-- list.sort(key=lambda s: s.priority, reverse=True) of event_bus.py:
Python sorts are stable, and a stable sort by a fixed comparison is
extensionally unique, so the stable insertion sort below is an exact model
of the descending-priority re-sort performed by subscribe. -/
def sortDesc : List EventSubscription → List EventSubscription
  | [] => []
  | x :: xs => insertDesc x (sortDesc xs)

/-- EventBus.subscribe: allocate a fresh id, build the subscription, append
it to the (possibly newly created) list for its event type and re-sort that
list by descending priority.  Returns the new id with the new bus state. -/
def EventBus.subscribe (bus : EventBus) (event_type : String)
    (cb_raises : Event → Bool) (priority : Int)
    (filter_func : Option (Event → FilterRes)) : Nat × EventBus :=
  let subscription_id := bus.next_id
  let s : EventSubscription :=
    { subscription_id := subscription_id, event_type := event_type,
      cb_raises := cb_raises, priority := priority, filter_func := filter_func }
  let cur := dictGet bus.subscribers event_type
  (subscription_id,
    { bus with
      subscribers := dictSet bus.subscribers event_type (sortDesc (cur ++ [s])),
      next_id := bus.next_id + 1 })

/-- Inner loop of EventBus.unsubscribe over one subscription list:
pop the first subscription carrying the id, if any. -/
def removeFirstSub (subscription_id : Nat) :
    List EventSubscription → Option (List EventSubscription)
  | [] => Option.none
  | s :: rest =>
    if s.subscription_id = subscription_id then some rest
    else (removeFirstSub subscription_id rest).map (fun r => s :: r)

/-- Outer loop of EventBus.unsubscribe over the subscriber dictionary in
insertion order; stops at the first list that contained the id. -/
def unsubscribeDict (subscription_id : Nat) :
    List (String × List EventSubscription) →
    Option (List (String × List EventSubscription))
  | [] => Option.none
  | (et, subs) :: rest =>
    match removeFirstSub subscription_id subs with
    | some subs1 => some ((et, subs1) :: rest)
    | Option.none =>
      (unsubscribeDict subscription_id rest).map (fun r => (et, subs) :: r)

/-- EventBus.unsubscribe: true and the updated state when the id was found
and removed, false with the state untouched otherwise. -/
def EventBus.unsubscribe (bus : EventBus) (subscription_id : Nat) :
    Bool × EventBus :=
  match unsubscribeDict subscription_id bus.subscribers with
  | some d => (true, { bus with subscribers := d })
  | Option.none => (false, bus)

/-- Body of the publish delivery loop before the try/except: evaluates
the filter (if any) and, when it passes or is absent, invokes the callback.
Returns the ids invoked by this iteration together with whether the
iteration raised (from the filter or from the callback). -/
def publishLoopBody (e : Event) (s : EventSubscription) : List Nat × Bool :=
  match s.filter_func with
  | Option.none => ([s.subscription_id], s.cb_raises e)
  | some f =>
    match f e with
    | FilterRes.pass => ([s.subscription_id], s.cb_raises e)
    | FilterRes.fail => ([], false)
    | FilterRes.exn => ([], true)

/-- The delivery loop of EventBus.publish: each iteration runs inside
try/except, so the raised-exception flag of publishLoopBody is caught and
dropped and iteration continues with the next subscription. -/
def deliver (e : Event) : List EventSubscription → List Nat
  | [] => []
  | s :: rest => (publishLoopBody e s).1 ++ deliver e rest

/-- EventBus.publish: build the event, append it to the history evicting
index 0 when the capacity is exceeded, snapshot the subscriber list for the
event type, and run the delivery loop on the snapshot.  Returns the list of
subscription ids whose callback was invoked, with the new bus state. -/
def EventBus.publish (bus : EventBus) (event_type : String) (data : EData)
    (source : String) : List Nat × EventBus :=
  let e : Event :=
    { event_type := event_type, data := data, source := source,
      seq := bus.next_seq }
  let hist1 := bus.event_history ++ [e]
  let hist2 := if (hist1.length : Int) > bus.max_history then hist1.drop 1 else hist1
  let snapshot := dictGet bus.subscribers event_type
  (deliver e snapshot,
    { bus with
      event_history := hist2,
      total_events_published := bus.total_events_published + 1,
      next_seq := bus.next_seq + 1 })

/-- Python list slice l[-limit:] for an arbitrary integer limit: for
positive limit the last limit elements, for limit = 0 the whole list
(since -0 is 0), for negative limit the elements from index -limit on. -/
def pySliceLast (l : List Event) (limit : Int) : List Event :=
  if 0 < limit then l.drop (l.length - limit.toNat) else l.drop (-limit).toNat

/-- EventBus.get_history: the last limit elements of the history,
optionally first filtered to a single event type.  The source defaults are
event_type=None and limit=100. -/
def EventBus.get_history (bus : EventBus) (event_type : Option String)
    (limit : Int) : List Event :=
  match event_type with
  | Option.none => pySliceLast bus.event_history limit
  | some et => pySliceLast (bus.event_history.filter (fun e => e.event_type == et)) limit

/-- EventBus.clear_history. -/
def EventBus.clear_history (bus : EventBus) : EventBus :=
  { bus with event_history := [] }

/-- One mutating EventBus method call, for quantifying over arbitrary
operation sequences.  get_history and get_stats are read-only and publish_async
is publish on a worker thread, so they add no distinct transitions. -/
inductive BusOp where
  | subscribe (event_type : String) (cb_raises : Event → Bool) (priority : Int)
      (filter_func : Option (Event → FilterRes))
  | unsubscribe (subscription_id : Nat)
  | publish (event_type : String) (data : EData) (source : String)
  | clear_history

/-- State transition of a single EventBus method call. -/
def EventBus.applyOp (bus : EventBus) : BusOp → EventBus
  | BusOp.subscribe et cb pr f => (bus.subscribe et cb pr f).2
  | BusOp.unsubscribe i => (bus.unsubscribe i).2
  | BusOp.publish et d src => (bus.publish et d src).2
  | BusOp.clear_history => bus.clear_history

/-- State after a sequence of EventBus method calls. -/
def EventBus.applyOps (bus : EventBus) (ops : List BusOp) : EventBus :=
  ops.foldl EventBus.applyOp bus

/-- Folding EventBus.publish over a list of (event_type, data, source)
arguments: N successive publishes. -/
def publishSeq (bus : EventBus) : List (String × EData × String) → EventBus
  | [] => bus
  | (et, d, src) :: rest => publishSeq (bus.publish et d src).2 rest

/-- The event a publish call with the given arguments constructs when the
bus's event counter stands at k. -/
def mkEvent (et : String) (d : EData) (src : String) (k : Nat) : Event :=
  { event_type := et, data := d, source := src, seq := k }

/-- The events that a publishSeq starting at sequence number k constructs,
in publish order. -/
def mkEvents : List (String × EData × String) → Nat → List Event
  | [], _ => []
  | (et, d, src) :: rest, k => mkEvent et d src k :: mkEvents rest (k + 1)

/-- State of a SimulationClock instance (simulation_clock.py).  datetime
values and perf_counter readings are idealised as rationals; the update
timer handle is not modelled (the timer only re-runs methods already
modelled). -/
structure SimulationClock where
  current_time : ℚ
  real_start_time : ℚ
  is_playing : Bool
  speed_multiplier : ℚ
  step_size : ℚ
  last_update_time : ℚ

/-- SimulationClock.__init__: paused, speed 1.0, step size one second. -/
def SimulationClock.new (start_time nowReal : ℚ) : SimulationClock :=
  { current_time := start_time, real_start_time := nowReal,
    is_playing := false, speed_multiplier := 1, step_size := 1,
    last_update_time := nowReal }

/-- SimulationClock.set_speed: raise ValueError when the multiplier is not
within [0.1, 100.0] (leaving every field untouched and publishing nothing);
otherwise store the multiplier, reset the real-time reference point when
playing, and publish "time.speed_changed" with the time/speed payload of
_publish_event.  nowReal is the current time.perf_counter() reading. -/
def SimulationClock.set_speed (clock : SimulationClock) (bus : EventBus)
    (multiplier : ℚ) (nowReal : ℚ) :
    Except String Unit × SimulationClock × EventBus :=
  if ¬ (1/10 ≤ multiplier ∧ multiplier ≤ 100) then
    (Except.error "Speed multiplier must be between 0.1 and 100.0", clock, bus)
  else
    let clock1 : SimulationClock :=
      { clock with
        speed_multiplier := multiplier,
        last_update_time :=
          if clock.is_playing then nowReal else clock.last_update_time }
    let bus1 := (bus.publish "time.speed_changed"
      (EData.timeSpeed clock1.current_time clock1.speed_multiplier)
      "SimulationClock").2
    (Except.ok (), clock1, bus1)

/-- Result of calling a component's initialize(app): returned True,
returned False, or raised.  The abstract outcome stands for the Python
callable, whose only observable effect on the framework is this result. -/
inductive InitRes where
  | ok
  | failed
  | exn
deriving DecidableEq, Repr

/-- A registered component as the Application observes it: the outcome of
its initialize call and whether its shutdown raises. -/
structure ComponentInterface where
  initRes : InitRes
  shutdownRaises : Bool
deriving DecidableEq, Repr

/-- Which lifecycle hooks a framework call invoked, in call order:
the names passed to initialize(app) and the names whose shutdown() ran. -/
structure LifecycleTrace where
  inits : List String
  shutdowns : List String
deriving DecidableEq, Repr

/-- State of an Application instance (app_framework.py) relevant to the
component-lifecycle claims: the insertion-ordered component registry and
the owned EventBus.  The clock, config store, frame timing and performance
monitor are untouched by the registry operations modelled here. -/
structure Application where
  components : List (String × ComponentInterface)
  event_bus : EventBus

/-- Application.register_component: raise ValueError when the name is
already registered, before any mutation; otherwise store the component.
No lifecycle hook runs (the trace is empty on both paths). -/
def Application.register_component (app : Application) (name : String)
    (component : ComponentInterface) :
    Except String Unit × Application × LifecycleTrace :=
  if (dictFind app.components name).isSome then
    (Except.error "Component is already registered", app,
      { inits := [], shutdowns := [] })
  else
    (Except.ok (),
      { app with components := app.components ++ [(name, component)] },
      { inits := [], shutdowns := [] })

/-- Application.unregister_component: when the name is registered, call its
shutdown inside try/except (a raising shutdown is caught and dropped),
delete the entry and return true; otherwise return false without touching
anything. -/
def Application.unregister_component (app : Application) (name : String) :
    Bool × Application × LifecycleTrace :=
  match dictFind app.components name with
  | some component =>
    -- component.shutdown() runs here; when it raises (shutdownRaises) the
    -- exception is caught by the try/except and only logged, so the raise
    -- flag does not reach the result
    (true || component.shutdownRaises,
      { app with components := dictRemove app.components name },
      { inits := [], shutdowns := [name] })
  | Option.none => (false, app, { inits := [], shutdowns := [] })

/-- Application.get_component: self._components.get(name). -/
def Application.get_component (app : Application) (name : String) :
    Option ComponentInterface :=
  dictFind app.components name

/-- One iteration of startup's failed-component cleanup loop
(for name in failed_components: self.unregister_component(name)),
accumulating the shutdown invocations. -/
def unregisterStep (st : Application × List String) (name : String) :
    Application × List String :=
  let r := st.1.unregister_component name
  (r.2.1, st.2 ++ r.2.2.shutdowns)

/-- Application.startup: publish "app.startup", call initialize(self) on
every registered component in registration order collecting the names that
returned False or raised, then unregister each failed name (running its
shutdown defensively); succeed only when no component failed.  The outer
try/except of the source is unreachable in the model since publish and
unregister_component swallow the exceptions of the callbacks they run. -/
def Application.startup (app : Application) :
    Bool × Application × LifecycleTrace :=
  let bus1 := (app.event_bus.publish "app.startup"
    (EData.names (app.components.map Prod.fst)) "Application").2
  let inits := app.components.map Prod.fst
  let failed_components :=
    (app.components.filter (fun p => p.2.initRes ≠ InitRes.ok)).map Prod.fst
  let fin := failed_components.foldl unregisterStep
    ({ app with event_bus := bus1 }, [])
  (failed_components.isEmpty, fin.1,
    { inits := inits, shutdowns := fin.2 })

/-- The last k elements of a list (all of it when it is shorter). -/
def lastN (l : List Event) (k : Nat) : List Event := l.drop (l.length - k)

/-- The history selected by get_history before the slice is taken: the
whole history, or the history filtered to one event type. -/
def histSelect (bus : EventBus) (event_type : Option String) : List Event :=
  match event_type with
  | Option.none => bus.event_history
  | some et => bus.event_history.filter (fun e => e.event_type == et)

/-- The subscriber list currently stored for an event type. -/
def subsOf (bus : EventBus) (event_type : String) : List EventSubscription :=
  dictGet bus.subscribers event_type

/-- Every subscription id stored in a subscriber dictionary, in storage
order. -/
def allIdsD (d : List (String × List EventSubscription)) : List Nat :=
  (d.map (fun p => p.2.map (fun s => s.subscription_id))).flatten

/-- Every subscription id stored anywhere in the bus, in storage order. -/
def allIds (bus : EventBus) : List Nat :=
  allIdsD bus.subscribers

/-- Whether publish invokes the callback of subscription s on event e:
the filter is absent or returns truthy (a raising filter skips the
callback). -/
def matchesB (s : EventSubscription) (e : Event) : Bool :=
  match s.filter_func with
  | Option.none => true
  | some f =>
    match f e with
    | FilterRes.pass => true
    | FilterRes.fail => false
    | FilterRes.exn => false

/-- Insert a newest element into a descending-priority list: it goes after
every element of priority at least its own (the position a stable
descending sort gives the last-appended element). -/
def insertLast (x : EventSubscription) :
    List EventSubscription → List EventSubscription
  | [] => [x]
  | y :: ys => if x.priority ≤ y.priority then y :: insertLast x ys else x :: y :: ys

/-- Delivery order between two subscriptions: strictly higher priority, or
equal priority and earlier subscription (ids are handed out by a counter,
so a smaller id means an earlier subscribe call). -/
def ordRel (a b : EventSubscription) : Prop :=
  b.priority < a.priority ∨
    (a.priority = b.priority ∧ a.subscription_id < b.subscription_id)

/-- A subscriber list in publish delivery order: sorted by descending
priority with equal priorities in subscription order. -/
def DOrdered (l : List EventSubscription) : Prop := l.Pairwise ordRel

/-- Well-formedness of a bus state, maintained by every operation: stored
ids are below the freshness counter, globally distinct, and every stored
list is in delivery order. -/
def EventBus.WF (bus : EventBus) : Prop :=
  (∀ p ∈ bus.subscribers, ∀ s ∈ p.2, s.subscription_id < bus.next_id) ∧
  (allIds bus).Nodup ∧
  (∀ p ∈ bus.subscribers, DOrdered p.2)

/-- The same bus with every subscription's callback behaviour replaced:
used to state that delivery does not depend on which callbacks raise. -/
def setRaises (g : EventSubscription → Event → Bool) (bus : EventBus) :
    EventBus :=
  { bus with
    subscribers := bus.subscribers.map (fun p =>
      (p.1, p.2.map (fun s => { s with cb_raises := g s }))) }

/-- Scenario fixture (spec Scenario A): two subscribers on "order.test"
with priorities 1 and 10, subscribed in that order. -/
def orderOps : List BusOp :=
  [BusOp.subscribe "order.test" (fun _ => false) 1 Option.none,
   BusOp.subscribe "order.test" (fun _ => false) 10 Option.none]

/-- The bus state after running the Scenario A subscriptions. -/
def orderBus : EventBus := (EventBus.new 1000).applyOps orderOps

/-- The stored priority-1 subscription of Scenario A (first subscribe,
hence id 0). -/
def orderSubLow : EventSubscription :=
  { subscription_id := 0, event_type := "order.test",
    cb_raises := fun _ => false, priority := 1, filter_func := Option.none }

/-- The stored priority-10 subscription of Scenario A (second subscribe,
hence id 1). -/
def orderSubHigh : EventSubscription :=
  { subscription_id := 1, event_type := "order.test",
    cb_raises := fun _ => false, priority := 10, filter_func := Option.none }

/-- Isolation fixture: a raising subscriber (priority 5, id 0) and a
well-behaved one (priority 0, id 1) on the same event type "x". -/
def isoOps : List BusOp :=
  [BusOp.subscribe "x" (fun _ => true) 5 Option.none,
   BusOp.subscribe "x" (fun _ => false) 0 Option.none]

/-- The bus state after the isolation-fixture subscriptions. -/
def isoBus : EventBus := (EventBus.new 1000).applyOps isoOps

/-- The stored well-behaved subscription of the isolation fixture. -/
def isoSubOk : EventSubscription :=
  { subscription_id := 1, event_type := "x",
    cb_raises := fun _ => false, priority := 0, filter_func := Option.none }

/-- Unsubscribe fixture: a single subscriber (id 0) on "x". -/
def unsubOps : List BusOp :=
  [BusOp.subscribe "x" (fun _ => false) 0 Option.none]

/-- The bus state after the unsubscribe-fixture subscription. -/
def unsubBus : EventBus := (EventBus.new 1000).applyOps unsubOps

/-! Basic association-list lemmas. -/

theorem dictFind_eq_none_iff {α : Type} {d : List (String × α)} {k : String} :
    dictFind d k = Option.none ↔ k ∉ d.map Prod.fst := by
  induction d with
  | nil => simp [dictFind]
  | cons p rest ih =>
    obtain ⟨k1, v1⟩ := p
    by_cases hk : k1 = k
    · subst hk
      simp [dictFind]
    · simp [dictFind, hk, ih, Ne.symm hk]

theorem dictFind_dictRemove_self {α : Type} {d : List (String × α)} {k : String}
    (h : (d.map Prod.fst).Nodup) : dictFind (dictRemove d k) k = Option.none := by
  induction d with
  | nil => simp [dictRemove, dictFind]
  | cons p rest ih =>
    obtain ⟨k1, v1⟩ := p
    simp only [List.map_cons, List.nodup_cons] at h
    by_cases hk : k1 = k
    · subst hk
      simpa [dictRemove, dictFind_eq_none_iff] using h.1
    · simp [dictRemove, hk, dictFind, ih h.2]

/-! Lemmas about lastN and the history slice. -/

theorem lastN_of_le {l : List Event} {k : Nat} (h : l.length ≤ k) :
    lastN l k = l := by
  simp [lastN, Nat.sub_eq_zero_of_le h]

theorem lastN_length (l : List Event) (k : Nat) :
    (lastN l k).length = min k l.length := by
  simp only [lastN, List.length_drop]
  omega

theorem lastN_suffix (l : List Event) (k : Nat) : (lastN l k).IsSuffix l :=
  List.drop_suffix _ _

theorem lastN_lastN (l : List Event) (a b : Nat) :
    lastN (lastN l a) b = lastN l (min a b) := by
  simp only [lastN, List.length_drop, List.drop_drop]
  have h : l.length - a + (l.length - (l.length - a) - b) = l.length - min a b := by
    omega
  rw [h]

theorem lastN_append_lastN (x m : List Event) (k : Nat) :
    lastN (lastN x k ++ m) k = lastN (x ++ m) k := by
  by_cases hx : x.length ≤ k
  · rw [lastN_of_le hx]
  · push_neg at hx
    simp only [lastN, List.length_append, List.length_drop]
    have htake : (x.take (x.length - k)).length = x.length - k := by
      rw [List.length_take]; omega
    have hcount1 : x.length - (x.length - k) + m.length - k = m.length := by omega
    have hsplit : x ++ m = x.take (x.length - k) ++ (x.drop (x.length - k) ++ m) := by
      rw [← List.append_assoc, List.take_append_drop]
    have hcount2 : x.length + m.length - k = (x.take (x.length - k)).length + m.length := by
      rw [htake]; omega
    rw [hcount1]
    conv_rhs => rw [hsplit, hcount2, List.drop_append]

theorem pySliceLast_pos {limit : Int} (l : List Event) (h : 0 < limit) :
    pySliceLast l limit = lastN l limit.toNat := by
  simp [pySliceLast, if_pos h, lastN]

theorem pySliceLast_zero (l : List Event) : pySliceLast l 0 = l := by
  simp [pySliceLast]

theorem get_history_eq (bus : EventBus) (event_type : Option String)
    (limit : Int) :
    bus.get_history event_type limit = pySliceLast (histSelect bus event_type) limit := by
  cases event_type <;> rfl

/-! History evolution under publish. -/

theorem publish_event_history (bus : EventBus) (et : String) (d : EData)
    (src : String) :
    (bus.publish et d src).2.event_history =
      if ((bus.event_history ++
            [mkEvent et d src bus.next_seq]).length : Int) > bus.max_history
      then (bus.event_history ++ [mkEvent et d src bus.next_seq]).drop 1
      else bus.event_history ++ [mkEvent et d src bus.next_seq] := rfl

theorem publish_event_history_char (bus : EventBus) (et : String) (d : EData)
    (src : String) (h : (bus.event_history.length : Int) ≤ bus.max_history) :
    (bus.publish et d src).2.event_history =
      lastN (bus.event_history ++ [mkEvent et d src bus.next_seq])
        bus.max_history.toNat ∧
    (((bus.publish et d src).2.event_history.length : Int) ≤ bus.max_history) := by
  rw [publish_event_history]
  by_cases hc : ((bus.event_history ++
      [mkEvent et d src bus.next_seq]).length : Int) > bus.max_history
  · rw [if_pos hc]
    simp only [List.length_append, List.length_cons, List.length_nil] at hc
    constructor
    · unfold lastN
      congr 1
      simp only [List.length_append, List.length_cons, List.length_nil]
      omega
    · simp only [List.length_drop, List.length_append, List.length_cons,
        List.length_nil]
      omega
  · rw [if_neg hc]
    push_neg at hc
    simp only [List.length_append, List.length_cons, List.length_nil] at hc
    constructor
    · refine (lastN_of_le ?_).symm
      simp only [List.length_append, List.length_cons, List.length_nil]
      omega
    · simp only [List.length_append, List.length_cons, List.length_nil]
      omega

theorem publishSeq_event_history :
    ∀ (inputs : List (String × EData × String)) (bus : EventBus),
    (bus.event_history.length : Int) ≤ bus.max_history →
    (publishSeq bus inputs).event_history =
      lastN (bus.event_history ++ mkEvents inputs bus.next_seq)
        bus.max_history.toNat := by
  intro inputs
  induction inputs with
  | nil =>
    intro bus h
    simp only [publishSeq, mkEvents, List.append_nil]
    exact (lastN_of_le (by omega)).symm
  | cons hd rest ih =>
    obtain ⟨et, d, src⟩ := hd
    intro bus h
    have hchar := publish_event_history_char bus et d src h
    show (publishSeq (bus.publish et d src).2 rest).event_history = _
    rw [ih _ hchar.2]
    have hmax : ((bus.publish et d src).2).max_history = bus.max_history := rfl
    have hseq : ((bus.publish et d src).2).next_seq = bus.next_seq + 1 := rfl
    rw [hmax, hseq, hchar.1, lastN_append_lastN, List.append_assoc]
    rfl

theorem mkEvents_length :
    ∀ (inputs : List (String × EData × String)) (k : Nat),
    (mkEvents inputs k).length = inputs.length := by
  intro inputs
  induction inputs with
  | nil => intro k; rfl
  | cons hd rest ih =>
    obtain ⟨et, d, src⟩ := hd
    intro k
    simp [mkEvents, ih]

theorem applyOp_history_bound {bus : EventBus} (op : BusOp)
    (h : (bus.event_history.length : Int) ≤ bus.max_history) :
    ((bus.applyOp op).event_history.length : Int) ≤ (bus.applyOp op).max_history ∧
    (bus.applyOp op).max_history = bus.max_history := by
  cases op with
  | subscribe et cb pr f => exact ⟨h, rfl⟩
  | unsubscribe i =>
    have h1 : (bus.unsubscribe i).2.event_history = bus.event_history := by
      unfold EventBus.unsubscribe
      cases unsubscribeDict i bus.subscribers <;> rfl
    have h2 : (bus.unsubscribe i).2.max_history = bus.max_history := by
      unfold EventBus.unsubscribe
      cases unsubscribeDict i bus.subscribers <;> rfl
    show ((bus.unsubscribe i).2.event_history.length : Int) ≤
      (bus.unsubscribe i).2.max_history ∧
      (bus.unsubscribe i).2.max_history = bus.max_history
    rw [h1, h2]
    exact ⟨h, rfl⟩
  | publish et d src =>
    exact ⟨(publish_event_history_char bus et d src h).2, rfl⟩
  | clear_history =>
    refine ⟨?_, rfl⟩
    show ((0 : Nat) : Int) ≤ bus.max_history
    omega

theorem applyOps_history_bound :
    ∀ (ops : List BusOp) (bus : EventBus),
    (bus.event_history.length : Int) ≤ bus.max_history →
    (((bus.applyOps ops).event_history.length : Int) ≤ bus.max_history) := by
  intro ops
  induction ops with
  | nil => intro bus h; exact h
  | cons op rest ih =>
    intro bus h
    have step := applyOp_history_bound op h
    have := ih (bus.applyOp op) step.1
    rwa [step.2] at this

/-- Claim C8: starting from a bus with capacity m at least 0, no sequence
of bus operations makes the history longer than m; and a publish on a bus
whose history is exactly at a capacity of at least 1 evicts exactly the
oldest entry and appends the new event at the newest end. -/
theorem claimC8_history_capacity :
    (∀ (m : Int) (ops : List BusOp), 0 ≤ m →
      (((EventBus.new m).applyOps ops).event_history.length : Int) ≤ m) ∧
    (∀ (bus : EventBus) (et : String) (d : EData) (src : String),
      1 ≤ bus.max_history →
      (bus.event_history.length : Int) = bus.max_history →
      (bus.publish et d src).2.event_history =
        bus.event_history.tail ++ [mkEvent et d src bus.next_seq]) := by
  constructor
  · intro m ops hm
    exact applyOps_history_bound ops (EventBus.new m)
      (by show ((0 : Nat) : Int) ≤ m; omega)
  · intro bus et d src h1 hcap
    rw [publish_event_history]
    rw [if_pos (by simp only [List.length_append, List.length_cons,
      List.length_nil]; omega)]
    cases hh : bus.event_history with
    | nil => rw [hh] at hcap; simp at hcap; omega
    | cons e0 t => simp [hh]

/-- Claim C8 witness: with capacity 5 the empty operation sequence keeps
the bound, and publishing on a capacity-1 bus already holding one event
replaces it: the old sole (oldest) entry is evicted and the new event is
retained. -/
theorem claimC8_history_capacity_witness :
    ((((EventBus.new 5).applyOps []).event_history.length : Int) ≤ 5) ∧
    ((publishSeq (EventBus.new 1)
        [("x", EData.none, "unknown")]).publish "y" EData.none "unknown").2.event_history =
      (publishSeq (EventBus.new 1)
        [("x", EData.none, "unknown")]).event_history.tail ++
        [mkEvent "y" EData.none "unknown" 1] :=
  ⟨claimC8_history_capacity.1 5 [] (by decide),
   claimC8_history_capacity.2 (publishSeq (EventBus.new 1)
     [("x", EData.none, "unknown")]) "y" EData.none "unknown"
     (by decide) (by decide)⟩

set_option maxRecDepth 20000 in
/-- Claim C1 counterexample: with max_history = 101 and 102 > 101 events
published, get_history() with its default arguments (limit 100) returns
100 events, not max_history = 101 as the claim states. -/
theorem claimC1_counterexample :
    101 < (List.replicate 102 ("x", EData.none, "unknown")).length ∧
    ((publishSeq (EventBus.new 101)
        (List.replicate 102 ("x", EData.none, "unknown"))).get_history
        Option.none 100).length ≠ 101 := by
  constructor
  · decide
  · decide

/-- Claim C1 as amended: after publishing N > max_history ≥ 0 events,
get_history() with its default arguments returns exactly
min(max_history, 100) events — 100 being the default limit — namely the
most recent min(max_history, 100) publishes in chronological order. -/
theorem claimC1_default_history (m : Nat)
    (inputs : List (String × EData × String)) (h : m < inputs.length) :
    (publishSeq (EventBus.new (m : Int)) inputs).get_history Option.none 100 =
      lastN (mkEvents inputs 0) (min m 100) ∧
    ((publishSeq (EventBus.new (m : Int)) inputs).get_history
      Option.none 100).length = min m 100 := by
  have hbase : (((EventBus.new (m : Int)).event_history.length : Int)) ≤
      (EventBus.new (m : Int)).max_history := by
    show ((0 : Nat) : Int) ≤ (m : Int)
    omega
  have hhist := publishSeq_event_history inputs (EventBus.new (m : Int)) hbase
  have hmax : (publishSeq (EventBus.new (m : Int)) inputs).max_history =
      (m : Int) := by
    have : ∀ (l : List (String × EData × String)) (bus : EventBus),
        (publishSeq bus l).max_history = bus.max_history := by
      intro l
      induction l with
      | nil => intro bus; rfl
      | cons hd rest ih =>
        obtain ⟨et, d, src⟩ := hd
        intro bus
        exact ih (bus.publish et d src).2
    exact this inputs (EventBus.new (m : Int))
  have htonat : ((m : Int)).toNat = m := Int.toNat_natCast m
  have hget : (publishSeq (EventBus.new (m : Int)) inputs).get_history
      Option.none 100 =
      lastN (mkEvents inputs 0) (min m 100) := by
    rw [get_history_eq, pySliceLast_pos _ (by omega)]
    show lastN (publishSeq (EventBus.new (m : Int)) inputs).event_history
      ((100 : Int)).toNat = _
    rw [hhist]
    show lastN (lastN ([] ++ mkEvents inputs 0)
      ((EventBus.new (m : Int)).max_history.toNat)) ((100 : Int)).toNat = _
    rw [List.nil_append]
    show lastN (lastN (mkEvents inputs 0) (((m : Int)).toNat)) 100 = _
    rw [htonat, lastN_lastN]
  refine ⟨hget, ?_⟩
  rw [hget, lastN_length, mkEvents_length]
  omega

/-- Claim C1 witness, the spec's Scenario B: capacity 5, 8 publishes of
type "x"; get_history() has length 5 = min(5, 100) and its first entry is
the 4th published event (sequence number 3). -/
theorem claimC1_default_history_witness :
    ((publishSeq (EventBus.new ((5 : Nat) : Int))
        [("x", EData.nat 0, "u"), ("x", EData.nat 1, "u"), ("x", EData.nat 2, "u"),
         ("x", EData.nat 3, "u"), ("x", EData.nat 4, "u"), ("x", EData.nat 5, "u"),
         ("x", EData.nat 6, "u"), ("x", EData.nat 7, "u")]).get_history
        Option.none 100).length = min 5 100 ∧
    ((publishSeq (EventBus.new ((5 : Nat) : Int))
        [("x", EData.nat 0, "u"), ("x", EData.nat 1, "u"), ("x", EData.nat 2, "u"),
         ("x", EData.nat 3, "u"), ("x", EData.nat 4, "u"), ("x", EData.nat 5, "u"),
         ("x", EData.nat 6, "u"), ("x", EData.nat 7, "u")]).get_history
        Option.none 100).head? = some (mkEvent "x" (EData.nat 3) "u" 3) :=
  ⟨(claimC1_default_history 5 _ (by decide)).2, by decide⟩

/-- Claim C5 counterexample: the claim asserts get_history returns at most
limit events for every limit ≥ 0, but for limit = 0 the code evaluates the
Python slice l[-0:] = l and returns the entire history: after one publish,
get_history(None, 0) returns 1 > 0 events. -/
theorem claimC5_counterexample :
    (0 : Int) ≤ 0 ∧
    ¬ ((((EventBus.new 1000).publish "x" EData.none "unknown").2.get_history
        Option.none 0).length ≤ 0) := by
  constructor
  · decide
  · decide

/-- Claim C5 as amended: for every limit ≥ 1 and optional event type,
get_history returns the last limit events of the (optionally type-filtered)
history — at most limit events, the most recent ones, in chronological
order (a suffix of the history, oldest of the returned slice first).  For
limit = 0 it instead returns the entire (filtered) history. -/
theorem claimC5_get_history (bus : EventBus) (event_type : Option String)
    (limit : Int) :
    (1 ≤ limit →
      bus.get_history event_type limit =
        lastN (histSelect bus event_type) limit.toNat ∧
      (bus.get_history event_type limit).length ≤ limit.toNat ∧
      (bus.get_history event_type limit).IsSuffix (histSelect bus event_type)) ∧
    (limit = 0 → bus.get_history event_type limit = histSelect bus event_type) := by
  constructor
  · intro h1
    have hpos : (0 : Int) < limit := by omega
    have heq : bus.get_history event_type limit =
        lastN (histSelect bus event_type) limit.toNat := by
      rw [get_history_eq, pySliceLast_pos _ hpos]
    refine ⟨heq, ?_, ?_⟩
    · rw [heq, lastN_length]; omega
    · rw [heq]; exact lastN_suffix _ _
  · intro h0
    subst h0
    rw [get_history_eq, pySliceLast_zero]

/-- Claim C5 witness: after three publishes, get_history(None, 2) returns
the last two events, a suffix of the history of length 2 ≤ 2. -/
theorem claimC5_get_history_witness :
    ((publishSeq (EventBus.new 1000)
        [("x", EData.nat 0, "u"), ("y", EData.nat 1, "u"),
         ("x", EData.nat 2, "u")]).get_history Option.none 2).length ≤
      ((2 : Int)).toNat ∧
    (publishSeq (EventBus.new 1000)
        [("x", EData.nat 0, "u"), ("y", EData.nat 1, "u"),
         ("x", EData.nat 2, "u")]).get_history Option.none 0 =
      histSelect (publishSeq (EventBus.new 1000)
        [("x", EData.nat 0, "u"), ("y", EData.nat 1, "u"),
         ("x", EData.nat 2, "u")]) Option.none :=
  ⟨((claimC5_get_history _ Option.none 2).1 (by decide)).2.1,
   (claimC5_get_history _ Option.none 0).2 rfl⟩

/-! Stable-sort lemmas for the subscriber lists. -/

theorem insertDesc_cons_le {x y : EventSubscription}
    (t : List EventSubscription) (h : y.priority ≤ x.priority) :
    insertDesc x (y :: t) = x :: y :: t := by
  simp [insertDesc, h]

theorem insertDesc_cons_gt {x y : EventSubscription}
    (t : List EventSubscription) (h : ¬ y.priority ≤ x.priority) :
    insertDesc x (y :: t) = y :: insertDesc x t := by
  simp [insertDesc, h]

theorem insertLast_cons_le {x y : EventSubscription}
    (t : List EventSubscription) (h : x.priority ≤ y.priority) :
    insertLast x (y :: t) = y :: insertLast x t := by
  simp [insertLast, h]

theorem insertLast_cons_gt {x y : EventSubscription}
    (t : List EventSubscription) (h : ¬ x.priority ≤ y.priority) :
    insertLast x (y :: t) = x :: y :: t := by
  simp [insertLast, h]

theorem insertDesc_perm (x : EventSubscription) :
    ∀ l : List EventSubscription, (insertDesc x l).Perm (x :: l) := by
  intro l
  induction l with
  | nil => exact List.Perm.refl _
  | cons y ys ih =>
    by_cases h : y.priority ≤ x.priority
    · rw [insertDesc_cons_le ys h]
    · rw [insertDesc_cons_gt ys h]
      exact (ih.cons y).trans (List.Perm.swap x y ys)

theorem sortDesc_perm : ∀ l : List EventSubscription, (sortDesc l).Perm l := by
  intro l
  induction l with
  | nil => exact List.Perm.refl _
  | cons x xs ih =>
    show (insertDesc x (sortDesc xs)).Perm (x :: xs)
    exact (insertDesc_perm x (sortDesc xs)).trans (ih.cons x)

theorem insertLast_perm (x : EventSubscription) :
    ∀ l : List EventSubscription, (insertLast x l).Perm (x :: l) := by
  intro l
  induction l with
  | nil => exact List.Perm.refl _
  | cons y ys ih =>
    by_cases h : x.priority ≤ y.priority
    · rw [insertLast_cons_le ys h]
      exact (ih.cons y).trans (List.Perm.swap x y ys)
    · rw [insertLast_cons_gt ys h]

theorem sortDesc_append_singleton :
    ∀ (l : List EventSubscription) (x : EventSubscription),
    l.Pairwise (fun a b => b.priority ≤ a.priority) →
    sortDesc (l ++ [x]) = insertLast x l := by
  intro l
  induction l with
  | nil => intro x _; rfl
  | cons a t ih =>
    intro x h
    rw [List.pairwise_cons] at h
    obtain ⟨ha, ht⟩ := h
    show insertDesc a (sortDesc (t ++ [x])) = insertLast x (a :: t)
    rw [ih x ht]
    by_cases hax : x.priority ≤ a.priority
    · rw [insertLast_cons_le t hax]
      cases t with
      | nil => exact insertDesc_cons_le [] hax
      | cons b t2 =>
        have hba : b.priority ≤ a.priority := ha b (List.mem_cons_self b t2)
        by_cases hxb : x.priority ≤ b.priority
        · rw [insertLast_cons_le t2 hxb]
          exact insertDesc_cons_le _ hba
        · rw [insertLast_cons_gt t2 hxb]
          exact insertDesc_cons_le _ hax
    · rw [insertLast_cons_gt t hax]
      have hxt : insertLast x t = x :: t := by
        cases t with
        | nil => rfl
        | cons b t2 =>
          have hba : b.priority ≤ a.priority := ha b (List.mem_cons_self b t2)
          have hxb : ¬ x.priority ≤ b.priority := by omega
          exact insertLast_cons_gt t2 hxb
      rw [hxt, insertDesc_cons_gt t hax]
      cases t with
      | nil => rfl
      | cons b t2 =>
        have hba : b.priority ≤ a.priority := ha b (List.mem_cons_self b t2)
        rw [insertDesc_cons_le t2 hba]

theorem DOrdered_insertLast {x : EventSubscription} :
    ∀ {l : List EventSubscription}, DOrdered l →
    (∀ y ∈ l, y.subscription_id < x.subscription_id) →
    DOrdered (insertLast x l) := by
  intro l
  induction l with
  | nil =>
    intro _ _
    exact List.pairwise_cons.mpr ⟨by simp, List.Pairwise.nil⟩
  | cons y t ih =>
    intro hord hid
    have hy := (List.pairwise_cons.mp hord).1
    have ht := (List.pairwise_cons.mp hord).2
    by_cases hxy : x.priority ≤ y.priority
    · rw [insertLast_cons_le t hxy]
      refine List.pairwise_cons.mpr ⟨?_, ih ht
        (fun z hz => hid z (List.mem_cons_of_mem _ hz))⟩
      intro z hz
      rcases List.mem_cons.mp ((insertLast_perm x t).mem_iff.mp hz) with rfl | hzt
      · rcases lt_or_eq_of_le hxy with hlt | heq
        · exact Or.inl hlt
        · exact Or.inr ⟨heq.symm, hid y (List.mem_cons_self y t)⟩
      · exact hy z hzt
    · rw [insertLast_cons_gt t hxy]
      refine List.pairwise_cons.mpr ⟨?_, hord⟩
      intro z hz
      rcases List.mem_cons.mp hz with rfl | hzt
      · exact Or.inl (by omega)
      · have := hy z hzt
        unfold ordRel at this ⊢
        omega

/-! Subscriber-dictionary lemmas and the bus well-formedness invariant. -/

theorem dictFind_mem {α : Type} :
    ∀ {d : List (String × α)} {k : String} {v : α},
    dictFind d k = some v → (k, v) ∈ d := by
  intro d
  induction d with
  | nil => intro k v h; cases h
  | cons p rest ih =>
    intro k v h
    obtain ⟨k1, v1⟩ := p
    by_cases hk : k1 = k
    · subst hk
      rw [dictFind, if_pos rfl] at h
      cases h
      exact List.mem_cons_self _ _
    · rw [dictFind, if_neg hk] at h
      exact List.mem_cons_of_mem _ (ih h)

theorem mem_dictSet {α : Type} :
    ∀ {d : List (String × α)} {k : String} {v : α} {p : String × α},
    p ∈ dictSet d k v → p = (k, v) ∨ p ∈ d := by
  intro d
  induction d with
  | nil =>
    intro k v p h
    rcases List.mem_cons.mp h with rfl | h2
    · exact Or.inl rfl
    · cases h2
  | cons q rest ih =>
    intro k v p h
    obtain ⟨k1, v1⟩ := q
    by_cases hk : k1 = k
    · subst hk
      rw [dictSet, if_pos rfl] at h
      rcases List.mem_cons.mp h with rfl | h2
      · exact Or.inl rfl
      · exact Or.inr (List.mem_cons_of_mem _ h2)
    · rw [dictSet, if_neg hk] at h
      rcases List.mem_cons.mp h with rfl | h2
      · exact Or.inr (List.mem_cons_self _ _)
      · rcases ih h2 with h3 | h3
        · exact Or.inl h3
        · exact Or.inr (List.mem_cons_of_mem _ h3)

theorem mem_dictGet {α : Type} {d : List (String × List α)} {k : String}
    {s : α} (h : s ∈ dictGet d k) : ∃ v, dictFind d k = some v ∧ s ∈ v := by
  unfold dictGet at h
  cases hf : dictFind d k with
  | none => rw [hf] at h; cases h
  | some v => rw [hf] at h; exact ⟨v, rfl, h⟩

theorem allIdsD_cons (p : String × List EventSubscription)
    (d : List (String × List EventSubscription)) :
    allIdsD (p :: d) =
      p.2.map (fun s => s.subscription_id) ++ allIdsD d := rfl

theorem mem_allIdsD {d : List (String × List EventSubscription)} {i : Nat} :
    i ∈ allIdsD d ↔ ∃ p ∈ d, ∃ s ∈ p.2, s.subscription_id = i := by
  simp only [allIdsD, List.mem_flatten, List.mem_map, Prod.exists]
  constructor
  · rintro ⟨l, ⟨a, b, hab, rfl⟩, hi⟩
    rcases List.mem_map.mp hi with ⟨s, hs, hsi⟩
    exact ⟨a, b, hab, s, hs, hsi⟩
  · rintro ⟨a, b, hab, s, hs, hsi⟩
    exact ⟨List.map (fun s => s.subscription_id) b, ⟨a, b, hab, rfl⟩,
      hsi ▸ List.mem_map_of_mem _ hs⟩

theorem allIdsD_subscribe (s : EventSubscription) (et : String) :
    ∀ d, (allIdsD (dictSet d et (sortDesc (dictGet d et ++ [s])))).Perm
      (s.subscription_id :: allIdsD d) := by
  intro d
  induction d with
  | nil => exact List.Perm.refl _
  | cons p rest ih =>
    obtain ⟨k1, l⟩ := p
    by_cases hk : k1 = et
    · subst hk
      have hset : dictSet ((k1, l) :: rest) k1 (sortDesc (dictGet ((k1, l) :: rest) k1 ++ [s])) =
          (k1, sortDesc (l ++ [s])) :: rest := by
        rw [dictSet, if_pos rfl]
        have hget : dictGet ((k1, l) :: rest) k1 = l := by
          unfold dictGet
          rw [dictFind, if_pos rfl]
        rw [hget]
      rw [hset, allIdsD_cons, allIdsD_cons]
      have hperm1 : ((sortDesc (l ++ [s])).map (fun x => x.subscription_id)).Perm
          ((l.map (fun x => x.subscription_id)) ++ [s.subscription_id]) := by
        have := (sortDesc_perm (l ++ [s])).map (fun x => x.subscription_id)
        simpa using this
      refine (hperm1.append_right _).trans ?_
      rw [List.append_assoc]
      exact List.perm_middle
    · have hget : dictGet ((k1, l) :: rest) et = dictGet rest et := by
        unfold dictGet
        rw [dictFind, if_neg hk]
      have hset : dictSet ((k1, l) :: rest) et (sortDesc (dictGet ((k1, l) :: rest) et ++ [s])) =
          (k1, l) :: dictSet rest et (sortDesc (dictGet rest et ++ [s])) := by
        rw [dictSet, if_neg hk, hget]
      rw [hset, allIdsD_cons, allIdsD_cons]
      refine (List.Perm.append_left _ ih).trans ?_
      exact List.perm_middle

theorem removeFirstSub_sublist :
    ∀ {l l2 : List EventSubscription} {i : Nat},
    removeFirstSub i l = some l2 → l2.Sublist l := by
  intro l
  induction l with
  | nil => intro l2 i h; cases h
  | cons s rest ih =>
    intro l2 i h
    by_cases hs : s.subscription_id = i
    · rw [removeFirstSub, if_pos hs] at h
      cases h
      exact List.sublist_cons_self s rest
    · rw [removeFirstSub, if_neg hs] at h
      rcases Option.map_eq_some'.mp h with ⟨r, hr, rfl⟩
      exact (ih hr).cons₂ s

theorem removeFirstSub_ids_perm :
    ∀ {l l2 : List EventSubscription} {i : Nat},
    removeFirstSub i l = some l2 →
    (l.map (fun s => s.subscription_id)).Perm
      (i :: l2.map (fun s => s.subscription_id)) := by
  intro l
  induction l with
  | nil => intro l2 i h; cases h
  | cons s rest ih =>
    intro l2 i h
    by_cases hs : s.subscription_id = i
    · rw [removeFirstSub, if_pos hs] at h
      cases h
      rw [List.map_cons, hs]
    · rw [removeFirstSub, if_neg hs] at h
      rcases Option.map_eq_some'.mp h with ⟨r, hr, rfl⟩
      rw [List.map_cons, List.map_cons]
      exact ((ih hr).cons s.subscription_id).trans
        (List.Perm.swap i s.subscription_id _)

theorem removeFirstSub_none :
    ∀ {l : List EventSubscription} {i : Nat},
    removeFirstSub i l = Option.none ↔
      i ∉ l.map (fun s => s.subscription_id) := by
  intro l
  induction l with
  | nil => intro i; simp [removeFirstSub]
  | cons s rest ih =>
    intro i
    by_cases hs : s.subscription_id = i
    · rw [removeFirstSub, if_pos hs]
      simp [hs]
    · rw [removeFirstSub, if_neg hs]
      simp only [Option.map_eq_none', List.map_cons, List.mem_cons]
      rw [ih]
      constructor
      · intro h1 h2
        rcases h2 with h2 | h2
        · exact hs h2.symm
        · exact h1 h2
      · intro h1 h2
        exact h1 (Or.inr h2)

theorem unsubscribeDict_ids_perm :
    ∀ {d d2 : List (String × List EventSubscription)} {i : Nat},
    unsubscribeDict i d = some d2 →
    (allIdsD d).Perm (i :: allIdsD d2) := by
  intro d
  induction d with
  | nil => intro d2 i h; cases h
  | cons p rest ih =>
    intro d2 i h
    obtain ⟨et, subs⟩ := p
    rw [unsubscribeDict] at h
    cases hr : removeFirstSub i subs with
    | some subs1 =>
      rw [hr] at h
      cases h
      rw [allIdsD_cons, allIdsD_cons]
      refine ((removeFirstSub_ids_perm hr).append_right _).trans ?_
      exact List.Perm.refl _
    | none =>
      rw [hr] at h
      rcases Option.map_eq_some'.mp h with ⟨r, hrr, rfl⟩
      rw [allIdsD_cons, allIdsD_cons]
      exact (List.Perm.append_left _ (ih hrr)).trans List.perm_middle

theorem unsubscribeDict_none :
    ∀ {d : List (String × List EventSubscription)} {i : Nat},
    unsubscribeDict i d = Option.none ↔ i ∉ allIdsD d := by
  intro d
  induction d with
  | nil => intro i; simp [unsubscribeDict, allIdsD]
  | cons p rest ih =>
    intro i
    obtain ⟨et, subs⟩ := p
    rw [unsubscribeDict, allIdsD_cons]
    cases hr : removeFirstSub i subs with
    | some subs1 =>
      simp only [List.mem_append]
      constructor
      · intro h; cases h
      · intro h
        exact absurd (Or.inl (((removeFirstSub_ids_perm hr).mem_iff).mpr
          (List.mem_cons_self _ _))) h
    | none =>
      simp only [Option.map_eq_none', List.mem_append]
      rw [ih]
      have hni : i ∉ subs.map (fun s => s.subscription_id) :=
        removeFirstSub_none.mp hr
      constructor
      · intro h1 h2
        rcases h2 with h2 | h2
        · exact hni h2
        · exact h1 h2
      · intro h1 h2
        exact h1 (Or.inr h2)

theorem unsubscribeDict_entry_sublist :
    ∀ {d d2 : List (String × List EventSubscription)} {i : Nat},
    unsubscribeDict i d = some d2 →
    ∀ p2 ∈ d2, ∃ p ∈ d, p2.1 = p.1 ∧ p2.2.Sublist p.2 := by
  intro d
  induction d with
  | nil => intro d2 i h; cases h
  | cons p rest ih =>
    intro d2 i h p2 hp2
    obtain ⟨et, subs⟩ := p
    rw [unsubscribeDict] at h
    cases hr : removeFirstSub i subs with
    | some subs1 =>
      rw [hr] at h
      cases h
      rcases List.mem_cons.mp hp2 with rfl | hmem
      · exact ⟨(et, subs), List.mem_cons_self _ _, rfl, removeFirstSub_sublist hr⟩
      · exact ⟨p2, List.mem_cons_of_mem _ hmem, rfl, List.Sublist.refl _⟩
    | none =>
      rw [hr] at h
      rcases Option.map_eq_some'.mp h with ⟨r, hrr, rfl⟩
      rcases List.mem_cons.mp hp2 with rfl | hmem
      · exact ⟨(et, subs), List.mem_cons_self _ _, rfl, List.Sublist.refl _⟩
      · rcases ih hrr p2 hmem with ⟨q, hq, h1, h2⟩
        exact ⟨q, List.mem_cons_of_mem _ hq, h1, h2⟩

theorem new_WF (m : Int) : (EventBus.new m).WF := by
  refine ⟨?_, ?_, ?_⟩
  · intro p hp; cases hp
  · exact List.Pairwise.nil
  · intro p hp; cases hp

theorem WF_id_lt {bus : EventBus} (hwf : bus.WF) {i : Nat}
    (h : i ∈ allIds bus) : i < bus.next_id := by
  rcases mem_allIdsD.mp h with ⟨p, hp, s, hs, rfl⟩
  exact hwf.1 p hp s hs

theorem subscribe_WF {bus : EventBus} (hwf : bus.WF) (et : String)
    (cb : Event → Bool) (pr : Int) (f : Option (Event → FilterRes)) :
    (bus.subscribe et cb pr f).2.WF := by
  set s : EventSubscription :=
    { subscription_id := bus.next_id, event_type := et,
      cb_raises := cb, priority := pr, filter_func := f } with hs
  have hsubs : (bus.subscribe et cb pr f).2.subscribers =
      dictSet bus.subscribers et (sortDesc (dictGet bus.subscribers et ++ [s])) := rfl
  have hnext : (bus.subscribe et cb pr f).2.next_id = bus.next_id + 1 := rfl
  have hcur : ∀ y ∈ dictGet bus.subscribers et, y.subscription_id < bus.next_id := by
    intro y hy
    rcases mem_dictGet hy with ⟨v, hv, hyv⟩
    exact hwf.1 (et, v) (dictFind_mem hv) y hyv
  refine ⟨?_, ?_, ?_⟩
  · intro p hp x hx
    rw [hnext]
    rw [hsubs] at hp
    rcases mem_dictSet hp with rfl | hp2
    · rcases List.mem_append.mp
        ((sortDesc_perm _).mem_iff.mp hx) with hx2 | hx2
      · exact Nat.lt_succ_of_lt (hcur x hx2)
      · rcases List.mem_cons.mp hx2 with rfl | h2
        · exact Nat.lt_succ_self _
        · cases h2
    · exact Nat.lt_succ_of_lt (hwf.1 p hp2 x hx)
  · show (allIdsD (bus.subscribe et cb pr f).2.subscribers).Nodup
    rw [hsubs]
    refine ((allIdsD_subscribe s et bus.subscribers).nodup_iff).mpr ?_
    refine List.nodup_cons.mpr ⟨?_, hwf.2.1⟩
    intro hmem
    exact absurd (WF_id_lt hwf hmem) (Nat.lt_irrefl _)
  · intro p hp
    rw [hsubs] at hp
    rcases mem_dictSet hp with rfl | hp2
    · have hord : DOrdered (dictGet bus.subscribers et) := by
        unfold dictGet
        cases hf : dictFind bus.subscribers et with
        | none => exact List.Pairwise.nil
        | some v => exact hwf.2.2 (et, v) (dictFind_mem hf)
      have hsorted : (dictGet bus.subscribers et).Pairwise
          (fun a b => b.priority ≤ a.priority) := by
        refine hord.imp ?_
        intro a b hab
        rcases hab with h | ⟨h, _⟩
        · exact le_of_lt h
        · exact le_of_eq h.symm
      show DOrdered (sortDesc (dictGet bus.subscribers et ++ [s]))
      rw [sortDesc_append_singleton _ s hsorted]
      exact DOrdered_insertLast hord hcur
    · exact hwf.2.2 p hp2

theorem unsubscribe_WF {bus : EventBus} (hwf : bus.WF) (i : Nat) :
    (bus.unsubscribe i).2.WF := by
  unfold EventBus.unsubscribe
  cases h : unsubscribeDict i bus.subscribers with
  | none => exact hwf
  | some d2 =>
    refine ⟨?_, ?_, ?_⟩
    · intro p hp x hx
      rcases unsubscribeDict_entry_sublist h p hp with ⟨q, hq, _, hsub⟩
      exact hwf.1 q hq x (hsub.subset hx)
    · show (allIdsD d2).Nodup
      have := ((unsubscribeDict_ids_perm h).nodup_iff).mp hwf.2.1
      exact (List.nodup_cons.mp this).2
    · intro p hp
      rcases unsubscribeDict_entry_sublist h p hp with ⟨q, hq, _, hsub⟩
      exact (hwf.2.2 q hq).sublist hsub

theorem applyOp_WF {bus : EventBus} (hwf : bus.WF) (op : BusOp) :
    (bus.applyOp op).WF := by
  cases op with
  | subscribe et cb pr f => exact subscribe_WF hwf et cb pr f
  | unsubscribe i => exact unsubscribe_WF hwf i
  | publish et d src => exact hwf
  | clear_history => exact hwf

theorem applyOps_WF :
    ∀ (ops : List BusOp) {bus : EventBus}, bus.WF → (bus.applyOps ops).WF := by
  intro ops
  induction ops with
  | nil => intro bus h; exact h
  | cons op rest ih =>
    intro bus h
    exact ih (applyOp_WF h op)

/-! Delivery lemmas: what publish invokes, in which order. -/

theorem deliver_eq_filter_map (e : Event) :
    ∀ l : List EventSubscription,
    deliver e l = (l.filter (fun s => matchesB s e)).map
      (fun s => s.subscription_id) := by
  intro l
  induction l with
  | nil => rfl
  | cons s rest ih =>
    show (publishLoopBody e s).1 ++ deliver e rest = _
    rcases hf : s.filter_func with _ | f
    · rw [List.filter_cons_of_pos (by simp [matchesB, hf]), List.map_cons]
      simp [publishLoopBody, hf, ih]
    · rcases hfe : f e with _ | _ | _
      · rw [List.filter_cons_of_pos (by simp [matchesB, hf, hfe]), List.map_cons]
        simp [publishLoopBody, hf, hfe, ih]
      · rw [List.filter_cons_of_neg (by simp [matchesB, hf, hfe])]
        simp [publishLoopBody, hf, hfe, ih]
      · rw [List.filter_cons_of_neg (by simp [matchesB, hf, hfe])]
        simp [publishLoopBody, hf, hfe, ih]

theorem publish_invoked (bus : EventBus) (et : String) (d : EData)
    (src : String) :
    (bus.publish et d src).1 =
      ((subsOf bus et).filter
        (fun s => matchesB s (mkEvent et d src bus.next_seq))).map
        (fun s => s.subscription_id) :=
  deliver_eq_filter_map _ _

theorem subsOf_entry (bus : EventBus) (et : String) :
    subsOf bus et = [] ∨ (et, subsOf bus et) ∈ bus.subscribers := by
  unfold subsOf dictGet
  cases hf : dictFind bus.subscribers et with
  | none => exact Or.inl rfl
  | some v => exact Or.inr (dictFind_mem hf)

theorem subsOf_DOrdered {bus : EventBus} (hwf : bus.WF) (et : String) :
    DOrdered (subsOf bus et) := by
  rcases subsOf_entry bus et with h | h
  · rw [h]; exact List.Pairwise.nil
  · exact hwf.2.2 _ h

theorem subsOf_ids_nodup {bus : EventBus} (hwf : bus.WF) (et : String) :
    ((subsOf bus et).map (fun s => s.subscription_id)).Nodup := by
  rcases subsOf_entry bus et with h | h
  · rw [h]; exact List.Pairwise.nil
  · have hin : (subsOf bus et).map (fun s => s.subscription_id) ∈
        bus.subscribers.map (fun p => p.2.map (fun s => s.subscription_id)) :=
      List.mem_map_of_mem _ h
    exact (List.nodup_flatten.mp hwf.2.1).1 _ hin

theorem subsOf_mem_allIds {bus : EventBus} {et : String}
    {s : EventSubscription} (hs : s ∈ subsOf bus et) :
    s.subscription_id ∈ allIds bus := by
  rcases subsOf_entry bus et with h | h
  · rw [h] at hs; cases hs
  · exact mem_allIdsD.mpr ⟨_, h, s, hs, rfl⟩

theorem invoked_subset_allIds {bus : EventBus} {et : String} {d : EData}
    {src : String} {i : Nat} (h : i ∈ (bus.publish et d src).1) :
    i ∈ allIds bus := by
  rw [publish_invoked] at h
  rcases List.mem_map.mp h with ⟨s, hs, rfl⟩
  exact subsOf_mem_allIds (List.mem_filter.mp hs).1

theorem indexOf_ordRel :
    ∀ (l : List EventSubscription), l.Pairwise ordRel →
    ((l.map fun s => s.subscription_id).Nodup) →
    ∀ {a b : EventSubscription}, a ∈ l → b ∈ l → ordRel a b →
    a.subscription_id ≠ b.subscription_id →
    (l.map fun s => s.subscription_id).indexOf a.subscription_id <
      (l.map fun s => s.subscription_id).indexOf b.subscription_id := by
  intro l
  induction l with
  | nil =>
    intro _ _ a b ha
    cases ha
  | cons s t ih =>
    intro hp hnd a b ha hb hab hne
    rw [List.pairwise_cons] at hp
    rw [List.map_cons, List.nodup_cons] at hnd
    rcases List.mem_cons.mp ha with rfl | hat
    · have hbt : b ∈ t := by
        rcases List.mem_cons.mp hb with rfl | h2
        · exact absurd rfl hne
        · exact h2
      rw [List.map_cons, List.indexOf_cons_self, List.indexOf_cons_ne _ hne]
      exact Nat.succ_pos _
    · rcases List.mem_cons.mp hb with rfl | hbt
      · have hba : ordRel b a := hp.1 a hat
        unfold ordRel at hab hba
        rcases hab with h1 | ⟨h2, h3⟩ <;> rcases hba with h4 | ⟨h5, h6⟩ <;> omega
      · have has : s.subscription_id ≠ a.subscription_id := by
          intro h
          exact hnd.1 (h ▸ List.mem_map_of_mem _ hat)
        have hbs : s.subscription_id ≠ b.subscription_id := by
          intro h
          exact hnd.1 (h ▸ List.mem_map_of_mem _ hbt)
        rw [List.map_cons, List.indexOf_cons_ne _ has,
          List.indexOf_cons_ne _ hbs]
        exact Nat.succ_lt_succ (ih hp.2 hnd.2 hat hbt hab hne)

theorem subscribe_allIds (bus : EventBus) (et : String) (cb : Event → Bool)
    (pr : Int) (f : Option (Event → FilterRes)) :
    (allIds (bus.subscribe et cb pr f).2).Perm (bus.next_id :: allIds bus) :=
  allIdsD_subscribe _ et bus.subscribers

theorem applyOp_not_present {bus : EventBus} {i : Nat} (op : BusOp)
    (h1 : i ∉ allIds bus) (h2 : i < bus.next_id) :
    i ∉ allIds (bus.applyOp op) ∧ i < (bus.applyOp op).next_id := by
  cases op with
  | subscribe et cb pr f =>
    constructor
    · intro hmem
      rcases List.mem_cons.mp
        ((subscribe_allIds bus et cb pr f).mem_iff.mp hmem) with rfl | h3
      · exact Nat.lt_irrefl _ h2
      · exact h1 h3
    · exact Nat.lt_succ_of_lt h2
  | unsubscribe j =>
    show i ∉ allIds (bus.unsubscribe j).2 ∧ i < (bus.unsubscribe j).2.next_id
    unfold EventBus.unsubscribe
    cases h : unsubscribeDict j bus.subscribers with
    | none => exact ⟨h1, h2⟩
    | some d2 =>
      refine ⟨?_, h2⟩
      intro hmem
      exact h1 ((unsubscribeDict_ids_perm h).mem_iff.mpr
        (List.mem_cons_of_mem _ hmem))
  | publish et d src => exact ⟨h1, h2⟩
  | clear_history => exact ⟨h1, h2⟩

theorem applyOps_not_present :
    ∀ (ops : List BusOp) {bus : EventBus} {i : Nat},
    i ∉ allIds bus → i < bus.next_id →
    i ∉ allIds (bus.applyOps ops) ∧ i < (bus.applyOps ops).next_id := by
  intro ops
  induction ops with
  | nil => intro bus i h1 h2; exact ⟨h1, h2⟩
  | cons op rest ih =>
    intro bus i h1 h2
    have step := applyOp_not_present op h1 h2
    exact ih step.1 step.2

theorem dictFind_map {α β : Type} (F : α → β) :
    ∀ (d : List (String × α)) (k : String),
    dictFind (d.map (fun p => (p.1, F p.2))) k = (dictFind d k).map F := by
  intro d
  induction d with
  | nil => intro k; rfl
  | cons p rest ih =>
    intro k
    obtain ⟨k1, v⟩ := p
    by_cases hk : k1 = k
    · subst hk; simp [dictFind]
    · simp [dictFind, hk, ih]

theorem deliver_setRaises (e : Event) (g : EventSubscription → Event → Bool)
    (l : List EventSubscription) :
    deliver e (l.map (fun s => { s with cb_raises := g s })) = deliver e l := by
  rw [deliver_eq_filter_map, deliver_eq_filter_map, List.filter_map,
    List.map_map]
  rfl

theorem setRaises_invoked (g : EventSubscription → Event → Bool)
    (bus : EventBus) (et : String) (d : EData) (src : String) :
    ((setRaises g bus).publish et d src).1 = (bus.publish et d src).1 := by
  show deliver (mkEvent et d src bus.next_seq)
      (dictGet (setRaises g bus).subscribers et) =
    deliver (mkEvent et d src bus.next_seq) (dictGet bus.subscribers et)
  show deliver _ (dictGet (bus.subscribers.map (fun p =>
    (p.1, p.2.map (fun s => { s with cb_raises := g s })))) et) = _
  unfold dictGet
  rw [dictFind_map]
  cases dictFind bus.subscribers et with
  | none => rfl
  | some v => exact deliver_setRaises _ g v

/-- Claim C2: on any reachable bus, for two subscriptions a and b stored
for the same event type whose callbacks a publish of that type invokes,
a strictly higher priority is invoked strictly earlier, whatever the
subscription order was; at equal priority the invocation order is exactly
the subscription order (ids are allocated in subscription order, so a
smaller subscription_id means an earlier subscribe). -/
theorem claimC2_priority_order (m : Int) (ops : List BusOp) (et : String)
    (d : EData) (src : String) (a b : EventSubscription)
    (ha : a ∈ subsOf ((EventBus.new m).applyOps ops) et)
    (hb : b ∈ subsOf ((EventBus.new m).applyOps ops) et)
    (hia : a.subscription_id ∈
      (((EventBus.new m).applyOps ops).publish et d src).1)
    (hib : b.subscription_id ∈
      (((EventBus.new m).applyOps ops).publish et d src).1) :
    (b.priority < a.priority →
      (((EventBus.new m).applyOps ops).publish et d src).1.indexOf
          a.subscription_id <
        (((EventBus.new m).applyOps ops).publish et d src).1.indexOf
          b.subscription_id) ∧
    (a.priority = b.priority →
      ((((EventBus.new m).applyOps ops).publish et d src).1.indexOf
          a.subscription_id <
        (((EventBus.new m).applyOps ops).publish et d src).1.indexOf
          b.subscription_id ↔
        a.subscription_id < b.subscription_id)) := by
  have hwf : ((EventBus.new m).applyOps ops).WF := applyOps_WF ops (new_WF m)
  set bus := (EventBus.new m).applyOps ops
  have hpub := publish_invoked bus et d src
  set e := mkEvent et d src bus.next_seq
  set l := subsOf bus et with hl
  set fl := l.filter (fun s => matchesB s e) with hfl
  have hord : DOrdered l := subsOf_DOrdered hwf et
  have hnodup : (l.map fun s => s.subscription_id).Nodup :=
    subsOf_ids_nodup hwf et
  have hflord : fl.Pairwise ordRel :=
    List.Pairwise.sublist (List.filter_sublist _) hord
  have hflnodup : (fl.map fun s => s.subscription_id).Nodup :=
    List.Nodup.sublist ((List.filter_sublist _).map _) hnodup
  have hafl : a ∈ fl := by
    rw [hpub] at hia
    rcases List.mem_map.mp hia with ⟨t, ht, hta⟩
    have heq : t = a :=
      List.inj_on_of_nodup_map hnodup (List.mem_filter.mp ht).1 ha hta
    exact heq ▸ ht
  have hbfl : b ∈ fl := by
    rw [hpub] at hib
    rcases List.mem_map.mp hib with ⟨t, ht, htb⟩
    have heq : t = b :=
      List.inj_on_of_nodup_map hnodup (List.mem_filter.mp ht).1 hb htb
    exact heq ▸ ht
  constructor
  · intro hlt
    rw [hpub]
    have hne : a.subscription_id ≠ b.subscription_id := by
      intro h
      have heq : a = b := List.inj_on_of_nodup_map hnodup ha hb h
      rw [heq] at hlt
      exact lt_irrefl _ hlt
    exact indexOf_ordRel fl hflord hflnodup hafl hbfl (Or.inl hlt) hne
  · intro heq
    rw [hpub]
    rcases Nat.lt_trichotomy a.subscription_id b.subscription_id with h | h | h
    · exact iff_of_true (indexOf_ordRel fl hflord hflnodup hafl hbfl
        (Or.inr ⟨heq, h⟩) (Nat.ne_of_lt h)) h
    · have hab : a = b := List.inj_on_of_nodup_map hnodup ha hb h
      subst hab
      exact iff_of_false (lt_irrefl _) (lt_irrefl _)
    · have hba := indexOf_ordRel fl hflord hflnodup hbfl hafl
        (Or.inr ⟨heq.symm, h⟩) (Nat.ne_of_lt h)
      exact iff_of_false (by omega) (by omega)

/-- Claim C2 witness, the spec's Scenario A: with subscriptions of
priority 1 (id 0) then priority 10 (id 1) on "order.test", a publish
invokes the priority-10 callback strictly before the priority-1 one. -/
theorem claimC2_priority_order_witness :
    (orderBus.publish "order.test" EData.none "unknown").1.indexOf 1 <
      (orderBus.publish "order.test" EData.none "unknown").1.indexOf 0 :=
  (claimC2_priority_order 1000 orderOps "order.test" EData.none "unknown"
    orderSubHigh orderSubLow
    (List.mem_cons_self _ _)
    (List.mem_cons_of_mem _ (List.mem_cons_self _ _))
    (List.mem_cons_self _ _)
    (List.mem_cons_of_mem _ (List.mem_cons_self _ _))).1 (by decide)

/-- Claim C3: on any reachable bus, a subscription s whose filter passes
(or is absent) for the published event has its callback invoked exactly
once, and the list of invoked callbacks is entirely independent of which
callbacks raise — so one subscriber raising neither reaches the publisher
nor disturbs delivery to any other matching subscriber. -/
theorem claimC3_callback_isolation (m : Int) (ops : List BusOp) (et : String)
    (d : EData) (src : String) (s : EventSubscription)
    (hs : s ∈ subsOf ((EventBus.new m).applyOps ops) et)
    (hm : matchesB s
      (mkEvent et d src ((EventBus.new m).applyOps ops).next_seq) = true) :
    ((((EventBus.new m).applyOps ops).publish et d src).1.count
      s.subscription_id = 1) ∧
    (∀ g : EventSubscription → Event → Bool,
      ((setRaises g ((EventBus.new m).applyOps ops)).publish et d src).1 =
        (((EventBus.new m).applyOps ops).publish et d src).1) := by
  have hwf : ((EventBus.new m).applyOps ops).WF := applyOps_WF ops (new_WF m)
  set bus := (EventBus.new m).applyOps ops
  constructor
  · rw [publish_invoked]
    have hnodup : ((subsOf bus et).map fun t => t.subscription_id).Nodup :=
      subsOf_ids_nodup hwf et
    have hflnodup : (((subsOf bus et).filter
        (fun t => matchesB t (mkEvent et d src bus.next_seq))).map
        fun t => t.subscription_id).Nodup :=
      List.Nodup.sublist ((List.filter_sublist _).map _) hnodup
    have hmem : s.subscription_id ∈ ((subsOf bus et).filter
        (fun t => matchesB t (mkEvent et d src bus.next_seq))).map
        fun t => t.subscription_id :=
      List.mem_map_of_mem _ (List.mem_filter.mpr ⟨hs, hm⟩)
    exact List.count_eq_one_of_mem hflnodup hmem
  · intro g
    exact setRaises_invoked g bus et d src

/-- Claim C3 witness: with a raising priority-5 subscriber (id 0) and a
well-behaved priority-0 subscriber (id 1) on "x", a publish still invokes
subscriber 1 exactly once. -/
theorem claimC3_callback_isolation_witness :
    (isoBus.publish "x" EData.none "unknown").1.count 1 = 1 :=
  (claimC3_callback_isolation 1000 isoOps "x" EData.none "unknown" isoSubOk
    (List.mem_cons_of_mem _ (List.mem_cons_self _ _)) rfl).1

/-- Claim C6: on any reachable bus holding a subscription id, the first
unsubscribe returns true; the second returns false and leaves the bus
state exactly unchanged; and after the first call no publish — even after
arbitrarily many further operations — ever invokes that subscription's
callback again. -/
theorem claimC6_unsubscribe_idempotent (m : Int) (ops : List BusOp) (i : Nat)
    (hp : i ∈ allIds ((EventBus.new m).applyOps ops)) :
    ((((EventBus.new m).applyOps ops).unsubscribe i).1 = true) ∧
    ((((EventBus.new m).applyOps ops).unsubscribe i).2.unsubscribe i =
      (false, (((EventBus.new m).applyOps ops).unsubscribe i).2)) ∧
    (∀ (ops2 : List BusOp) (et : String) (d : EData) (src : String),
      i ∉ (((((EventBus.new m).applyOps ops).unsubscribe i).2.applyOps
        ops2).publish et d src).1) := by
  have hwf : ((EventBus.new m).applyOps ops).WF := applyOps_WF ops (new_WF m)
  set bus := (EventBus.new m).applyOps ops
  cases h : unsubscribeDict i bus.subscribers with
  | none => exact absurd hp (unsubscribeDict_none.mp h)
  | some d2 =>
    have hu : bus.unsubscribe i = (true, { bus with subscribers := d2 }) := by
      unfold EventBus.unsubscribe
      rw [h]
    have hni : i ∉ allIdsD d2 := by
      have hperm := unsubscribeDict_ids_perm h
      have hnd : (i :: allIdsD d2).Nodup := (hperm.nodup_iff).mp hwf.2.1
      exact (List.nodup_cons.mp hnd).1
    have hni2 : i ∉ allIds { bus with subscribers := d2 } := hni
    have hlt : i < bus.next_id := WF_id_lt hwf hp
    refine ⟨by rw [hu], ?_, ?_⟩
    · rw [hu]
      show ({ bus with subscribers := d2 } : EventBus).unsubscribe i = _
      unfold EventBus.unsubscribe
      rw [show unsubscribeDict i ({ bus with subscribers := d2 } :
        EventBus).subscribers = Option.none from unsubscribeDict_none.mpr hni]
    · intro ops2 et d src hmem
      rw [hu] at hmem
      have hnp := applyOps_not_present ops2 hni2
        (show i < ({ bus with subscribers := d2 } : EventBus).next_id from hlt)
      exact hnp.1 (invoked_subset_allIds hmem)

/-- Claim C6 witness: on the one-subscriber fixture, unsubscribing id 0
returns true, a second unsubscribe returns false leaving the state
unchanged, and a subsequent publish of "x" invokes nobody with id 0. -/
theorem claimC6_unsubscribe_idempotent_witness :
    ((unsubBus.unsubscribe 0).1 = true) ∧
    ((unsubBus.unsubscribe 0).2.unsubscribe 0 =
      (false, (unsubBus.unsubscribe 0).2)) ∧
    (0 ∉ (((unsubBus.unsubscribe 0).2.applyOps []).publish "x" EData.none
      "unknown").1) := by
  have H := claimC6_unsubscribe_idempotent 1000 unsubOps 0
    (by show 0 ∈ allIds unsubBus; decide)
  exact ⟨H.1, H.2.1, H.2.2 [] "x" EData.none "unknown"⟩

/-- Claim C4: set_speed(x) raises a validation error exactly when x lies
outside [0.1, 100.0]; a raising call leaves the clock and the bus
untouched; a successful call sets speed_multiplier to x and publishes a
"time.speed_changed" event on the bus. -/
theorem claimC4_set_speed (clock : SimulationClock) (bus : EventBus)
    (x nowReal : ℚ) :
    (¬ (1/10 ≤ x ∧ x ≤ 100) →
      clock.set_speed bus x nowReal =
        (Except.error "Speed multiplier must be between 0.1 and 100.0",
          clock, bus)) ∧
    (1/10 ≤ x ∧ x ≤ 100 →
      (clock.set_speed bus x nowReal).1 = Except.ok () ∧
      (clock.set_speed bus x nowReal).2.1.speed_multiplier = x ∧
      (clock.set_speed bus x nowReal).2.2 =
        (bus.publish "time.speed_changed" (EData.timeSpeed clock.current_time x)
          "SimulationClock").2) := by
  constructor
  · intro h
    simp only [SimulationClock.set_speed, if_pos h]
  · intro h
    simp only [SimulationClock.set_speed]
    rw [if_neg (not_not_intro h)]
    exact ⟨rfl, rfl, rfl⟩

/-- Claim C4 witness, the spec's Scenario C: set_speed(0.05) on a fresh
clock (speed 1.0) fails and changes neither the clock nor the bus. -/
theorem claimC4_set_speed_witness :
    (SimulationClock.new 0 0).speed_multiplier = 1 ∧
    (SimulationClock.new 0 0).set_speed (EventBus.new 1000) (1/20) 0 =
      (Except.error "Speed multiplier must be between 0.1 and 100.0",
        SimulationClock.new 0 0, EventBus.new 1000) :=
  ⟨rfl, (claimC4_set_speed (SimulationClock.new 0 0) (EventBus.new 1000)
    (1/20) 0).1 (by norm_num)⟩

/-- Claim C9: registering an already-present name fails with an error and
leaves the registry (including the entry bound to the name) exactly as it
was, with no lifecycle hook invoked; registering a fresh name appends the
component without calling initialize. -/
theorem claimC9_register_component (app : Application) (name : String)
    (component : ComponentInterface) :
    ((dictFind app.components name).isSome →
      app.register_component name component =
        (Except.error "Component is already registered", app,
          { inits := [], shutdowns := [] })) ∧
    (dictFind app.components name = Option.none →
      app.register_component name component =
        (Except.ok (),
          { app with components := app.components ++ [(name, component)] },
          { inits := [], shutdowns := [] })) := by
  constructor
  · intro h
    simp only [Application.register_component, if_pos h]
  · intro h
    simp only [Application.register_component, h, Option.isSome_none,
      Bool.false_eq_true, if_false]

/-- Claim C9 witness: registering the duplicate name "a" fails and leaves
the one-entry registry unchanged; registering the fresh name "b" appends. -/
theorem claimC9_register_component_witness :
    (Application.register_component
        { components := [("a", { initRes := InitRes.ok, shutdownRaises := false })],
          event_bus := EventBus.new 1000 } "a"
        { initRes := InitRes.ok, shutdownRaises := true } =
      (Except.error "Component is already registered",
        { components := [("a", { initRes := InitRes.ok, shutdownRaises := false })],
          event_bus := EventBus.new 1000 },
        { inits := [], shutdowns := [] })) ∧
    (Application.register_component
        { components := [("a", { initRes := InitRes.ok, shutdownRaises := false })],
          event_bus := EventBus.new 1000 } "b"
        { initRes := InitRes.ok, shutdownRaises := true } =
      (Except.ok (),
        { components := [("a", { initRes := InitRes.ok, shutdownRaises := false }),
                         ("b", { initRes := InitRes.ok, shutdownRaises := true })],
          event_bus := EventBus.new 1000 },
        { inits := [], shutdowns := [] })) :=
  ⟨(claimC9_register_component _ "a" _).1 rfl,
   (claimC9_register_component _ "b" _).2 rfl⟩

/-- Claim C10: unregistering a registered name runs its shutdown (whose
exception, if raised, is swallowed), removes the entry — after which
get_component yields none — and returns true, independently of the
shutdownRaises flag; unregistering an absent name returns false, invokes
no shutdown and leaves the registry untouched. -/
theorem claimC10_unregister_component (app : Application) (name : String) :
    (∀ c : ComponentInterface, dictFind app.components name = some c →
      app.unregister_component name =
        (true, { app with components := dictRemove app.components name },
          { inits := [], shutdowns := [name] }) ∧
      ((app.components.map Prod.fst).Nodup →
        (app.unregister_component name).2.1.get_component name = Option.none)) ∧
    (dictFind app.components name = Option.none →
      app.unregister_component name = (false, app, { inits := [], shutdowns := [] })) := by
  constructor
  · intro c hc
    constructor
    · simp only [Application.unregister_component, hc, Bool.true_or]
    · intro hnd
      simp only [Application.unregister_component, hc, Application.get_component]
      exact dictFind_dictRemove_self hnd
  · intro h
    simp only [Application.unregister_component, h]

/-- Claim C10 witness: on the registry {"g"} with a raising shutdown, the
first unregister of "g" returns true, runs the shutdown and empties the
registry; unregistering the absent "h" returns false and changes nothing. -/
theorem claimC10_unregister_component_witness :
    (Application.unregister_component
        { components := [("g", { initRes := InitRes.ok, shutdownRaises := true })],
          event_bus := EventBus.new 1000 } "g" =
      (true, { components := [], event_bus := EventBus.new 1000 },
        { inits := [], shutdowns := ["g"] })) ∧
    (Application.unregister_component
        { components := [("g", { initRes := InitRes.ok, shutdownRaises := true })],
          event_bus := EventBus.new 1000 } "h" =
      (false,
        { components := [("g", { initRes := InitRes.ok, shutdownRaises := true })],
          event_bus := EventBus.new 1000 },
        { inits := [], shutdowns := [] })) :=
  ⟨((claimC10_unregister_component
      { components := [("g", { initRes := InitRes.ok, shutdownRaises := true })],
        event_bus := EventBus.new 1000 } "g").1
      { initRes := InitRes.ok, shutdownRaises := true } rfl).1,
   (claimC10_unregister_component _ "h").2 rfl⟩

/-! Registry lemmas for Application.startup. -/

theorem isSome_dictFind_of_mem {α : Type} :
    ∀ {d : List (String × α)} {p : String × α},
    p ∈ d → (dictFind d p.1).isSome := by
  intro d
  induction d with
  | nil => intro p h; cases h
  | cons q rest ih =>
    intro p h
    obtain ⟨k1, v⟩ := q
    by_cases hk : k1 = p.1
    · rw [dictFind, if_pos hk]; rfl
    · rcases List.mem_cons.mp h with rfl | h2
      · exact absurd rfl hk
      · rw [dictFind, if_neg hk]
        exact ih h2

theorem dictFind_of_mem_nodup {α : Type} :
    ∀ {d : List (String × α)} {p : String × α},
    (d.map Prod.fst).Nodup → p ∈ d → dictFind d p.1 = some p.2 := by
  intro d
  induction d with
  | nil => intro p _ h; cases h
  | cons q rest ih =>
    intro p hnd h
    obtain ⟨k1, v⟩ := q
    rw [List.map_cons, List.nodup_cons] at hnd
    rcases List.mem_cons.mp h with rfl | h2
    · rw [dictFind, if_pos rfl]
    · have hk : k1 ≠ p.1 := by
        intro he
        apply hnd.1
        show k1 ∈ List.map Prod.fst rest
        rw [he]
        exact List.mem_map_of_mem Prod.fst h2
      rw [dictFind, if_neg hk]
      exact ih hnd.2 h2

theorem dictRemove_eq_filter {α : Type} :
    ∀ {d : List (String × α)} (k : String), (d.map Prod.fst).Nodup →
    dictRemove d k = d.filter (fun p => decide (p.1 ≠ k)) := by
  intro d
  induction d with
  | nil => intro k _; rfl
  | cons q rest ih =>
    intro k hnd
    obtain ⟨k1, v⟩ := q
    rw [List.map_cons, List.nodup_cons] at hnd
    by_cases hk : k1 = k
    · rw [dictRemove, if_pos hk]
      rw [List.filter_cons_of_neg (by simp [hk])]
      refine (List.filter_eq_self.mpr ?_).symm
      intro p hp
      simp only [decide_eq_true_eq]
      intro he
      refine hnd.1 ?_
      show k1 ∈ List.map Prod.fst rest
      rw [hk, ← he]
      exact List.mem_map_of_mem Prod.fst hp
    · rw [dictRemove, if_neg hk]
      rw [List.filter_cons_of_pos (by simp [hk]), ih k hnd.2]

theorem dictFind_filter_mem {α : Type} {ns : List String} :
    ∀ {d : List (String × α)} {k : String}, k ∈ ns →
    dictFind (d.filter (fun q => decide (q.1 ∉ ns))) k = Option.none := by
  intro d
  induction d with
  | nil => intro k _; rfl
  | cons q rest ih =>
    intro k hk
    obtain ⟨k1, v⟩ := q
    by_cases hq : k1 ∈ ns
    · rw [List.filter_cons_of_neg (by simp [hq])]
      exact ih hk
    · rw [List.filter_cons_of_pos (by simp [hq])]
      have hne : k1 ≠ k := fun he => hq (he ▸ hk)
      rw [dictFind, if_neg hne]
      exact ih hk

theorem dictFind_filter_not_mem {α : Type} {ns : List String} :
    ∀ {d : List (String × α)} {k : String}, k ∉ ns →
    dictFind (d.filter (fun q => decide (q.1 ∉ ns))) k = dictFind d k := by
  intro d
  induction d with
  | nil => intro k _; rfl
  | cons q rest ih =>
    intro k hk
    obtain ⟨k1, v⟩ := q
    by_cases hq : k1 ∈ ns
    · rw [List.filter_cons_of_neg (by simp [hq])]
      have hne : k1 ≠ k := fun he => hk (he ▸ hq)
      rw [ih hk, dictFind, if_neg hne]
    · rw [List.filter_cons_of_pos (by simp [hq])]
      by_cases hqk : k1 = k
      · rw [dictFind, if_pos hqk, dictFind, if_pos hqk]
      · rw [dictFind, if_neg hqk, dictFind, if_neg hqk]
        exact ih hk

theorem dictFind_dictRemove_ne {α : Type} :
    ∀ {d : List (String × α)} {k k2 : String}, k2 ≠ k →
    dictFind (dictRemove d k) k2 = dictFind d k2 := by
  intro d
  induction d with
  | nil => intro k k2 _; rfl
  | cons q rest ih =>
    intro k k2 hne
    obtain ⟨k1, v⟩ := q
    by_cases hk : k1 = k
    · rw [dictRemove, if_pos hk]
      have hne1 : k1 ≠ k2 := fun he => hne (by rw [← he, hk])
      rw [dictFind, if_neg hne1]
    · rw [dictRemove, if_neg hk]
      by_cases hk2 : k1 = k2
      · rw [dictFind, if_pos hk2, dictFind, if_pos hk2]
      · rw [dictFind, if_neg hk2, dictFind, if_neg hk2]
        exact ih hne

theorem unregisterStep_foldl :
    ∀ (ns : List String) (app : Application) (acc : List String),
    (app.components.map Prod.fst).Nodup →
    (∀ n ∈ ns, (dictFind app.components n).isSome) →
    ns.Nodup →
    (ns.foldl unregisterStep (app, acc)).1.components =
      app.components.filter (fun p => decide (p.1 ∉ ns)) ∧
    (ns.foldl unregisterStep (app, acc)).1.event_bus = app.event_bus ∧
    (ns.foldl unregisterStep (app, acc)).2 = acc ++ ns := by
  intro ns
  induction ns with
  | nil =>
    intro app acc _ _ _
    refine ⟨?_, rfl, (List.append_nil acc).symm⟩
    refine (List.filter_eq_self.mpr ?_).symm
    intro p _
    simp
  | cons n rest ih =>
    intro app acc hnd hpres hns
    rw [List.nodup_cons] at hns
    have hsome := hpres n (List.mem_cons_self n rest)
    rcases Option.isSome_iff_exists.mp hsome with ⟨c, hc⟩
    have hstep : unregisterStep (app, acc) n =
        ({ app with components := dictRemove app.components n }, acc ++ [n]) := by
      unfold unregisterStep Application.unregister_component
      rw [hc]
    have hrem : dictRemove app.components n =
        app.components.filter (fun p => decide (p.1 ≠ n)) :=
      dictRemove_eq_filter n hnd
    have hnd2 : ((dictRemove app.components n).map Prod.fst).Nodup := by
      rw [hrem]
      exact List.Nodup.sublist ((List.filter_sublist _).map _) hnd
    have hpres2 : ∀ n2 ∈ rest,
        (dictFind (dictRemove app.components n) n2).isSome := by
      intro n2 hn2
      have hne : n2 ≠ n := fun he => hns.1 (he ▸ hn2)
      rw [dictFind_dictRemove_ne hne]
      exact hpres n2 (List.mem_cons_of_mem _ hn2)
    have IH := ih { app with components := dictRemove app.components n }
      (acc ++ [n]) hnd2 hpres2 hns.2
    rw [List.foldl_cons, hstep]
    refine ⟨?_, IH.2.1, ?_⟩
    · rw [IH.1]
      show (dictRemove app.components n).filter _ = _
      rw [hrem, List.filter_filter]
      refine List.filter_congr ?_
      intro p _
      by_cases h1 : p.1 = n <;> by_cases h2 : p.1 ∈ rest <;>
        simp [h1, h2, List.mem_cons]
    · rw [IH.2.2, List.append_assoc]
      rfl

/-- Claim C7: provided the registry keys are distinct (an invariant
register_component maintains), startup() returns true exactly when every
registered component's initialize returned true without raising; every
component whose initialize returned false or raised is removed — its
shutdown having been invoked defensively and get_component subsequently
yielding none — while every succeeding component stays registered. -/
theorem claimC7_startup (app : Application)
    (hnd : (app.components.map Prod.fst).Nodup) :
    ((app.startup.1 = true) ↔
      ∀ p ∈ app.components, p.2.initRes = InitRes.ok) ∧
    (∀ p ∈ app.components, p.2.initRes ≠ InitRes.ok →
      app.startup.2.1.get_component p.1 = Option.none ∧
      p.1 ∈ app.startup.2.2.shutdowns) ∧
    (∀ p ∈ app.components, p.2.initRes = InitRes.ok →
      app.startup.2.1.get_component p.1 = some p.2) := by
  have hfnd : ((app.components.filter
      (fun p => decide (p.2.initRes ≠ InitRes.ok))).map Prod.fst).Nodup :=
    List.Nodup.sublist ((List.filter_sublist _).map _) hnd
  have hpres : ∀ n ∈ (app.components.filter
      (fun p => decide (p.2.initRes ≠ InitRes.ok))).map Prod.fst,
      (dictFind app.components n).isSome := by
    intro n hn
    rcases List.mem_map.mp hn with ⟨p, hpf, rfl⟩
    exact isSome_dictFind_of_mem (List.mem_filter.mp hpf).1
  have hf := unregisterStep_foldl
    ((app.components.filter
      (fun p => decide (p.2.initRes ≠ InitRes.ok))).map Prod.fst)
    { app with event_bus := (app.event_bus.publish "app.startup"
        (EData.names (app.components.map Prod.fst)) "Application").2 }
    [] hnd hpres hfnd
  refine ⟨?_, ?_, ?_⟩
  · show ((app.components.filter
        (fun p => decide (p.2.initRes ≠ InitRes.ok))).map Prod.fst).isEmpty =
        true ↔ _
    rw [List.isEmpty_iff, List.map_eq_nil_iff, List.filter_eq_nil_iff]
    constructor
    · intro h p hp
      have := h p hp
      simpa using this
    · intro h p hp
      simp [h p hp]
  · intro p hp hne
    have hmemf : p.1 ∈ (app.components.filter
        (fun p => decide (p.2.initRes ≠ InitRes.ok))).map Prod.fst :=
      List.mem_map_of_mem _ (List.mem_filter.mpr ⟨hp, by simp [hne]⟩)
    constructor
    · show dictFind app.startup.2.1.components p.1 = Option.none
      have hcomp : app.startup.2.1.components =
          ({ app with event_bus := (app.event_bus.publish "app.startup"
            (EData.names (app.components.map Prod.fst)) "Application").2
           } : Application).components.filter
            (fun q => decide (q.1 ∉ (app.components.filter
              (fun p => decide (p.2.initRes ≠ InitRes.ok))).map Prod.fst)) :=
        hf.1
      rw [hcomp]
      exact dictFind_filter_mem hmemf
    · show p.1 ∈ app.startup.2.2.shutdowns
      have hsh : app.startup.2.2.shutdowns =
          [] ++ (app.components.filter
            (fun p => decide (p.2.initRes ≠ InitRes.ok))).map Prod.fst :=
        hf.2.2
      rw [hsh, List.nil_append]
      exact hmemf
  · intro p hp hok
    have hnotf : p.1 ∉ (app.components.filter
        (fun p => decide (p.2.initRes ≠ InitRes.ok))).map Prod.fst := by
      intro hmem
      rcases List.mem_map.mp hmem with ⟨q, hqf, hq1⟩
      have hqc := (List.mem_filter.mp hqf).1
      have hqne : q.2.initRes ≠ InitRes.ok := by
        have := (List.mem_filter.mp hqf).2
        simpa using this
      have hqp : q = p := List.inj_on_of_nodup_map hnd hqc hp hq1
      rw [hqp] at hqne
      exact hqne hok
    show dictFind app.startup.2.1.components p.1 = some p.2
    have hcomp : app.startup.2.1.components =
        ({ app with event_bus := (app.event_bus.publish "app.startup"
          (EData.names (app.components.map Prod.fst)) "Application").2
         } : Application).components.filter
          (fun q => decide (q.1 ∉ (app.components.filter
            (fun p => decide (p.2.initRes ≠ InitRes.ok))).map Prod.fst)) :=
      hf.1
    rw [hcomp, dictFind_filter_not_mem hnotf]
    exact dictFind_of_mem_nodup hnd hp

/-- Claim C7 witness, the spec's Scenario D: with the single component "g"
whose initialize returns False, startup() returns false, get_component("g")
afterwards yields none, and "g"'s shutdown was invoked. -/
theorem claimC7_startup_witness :
    ((Application.startup
      { components := [("g", { initRes := InitRes.failed, shutdownRaises := false })],
        event_bus := EventBus.new 1000 }).2.1.get_component "g" = Option.none) ∧
    ("g" ∈ (Application.startup
      { components := [("g", { initRes := InitRes.failed, shutdownRaises := false })],
        event_bus := EventBus.new 1000 }).2.2.shutdowns) ∧
    ((Application.startup
      { components := [("g", { initRes := InitRes.failed, shutdownRaises := false })],
        event_bus := EventBus.new 1000 }).1 = false) :=
  ⟨((claimC7_startup _ (by decide)).2.1
      ("g", { initRes := InitRes.failed, shutdownRaises := false })
      (List.mem_cons_self _ _) (by decide)).1,
   ((claimC7_startup _ (by decide)).2.1
      ("g", { initRes := InitRes.failed, shutdownRaises := false })
      (List.mem_cons_self _ _) (by decide)).2,
   by decide⟩

end CNG
